import Mathlib

/-!
# year-end-review: a verification development

A shallow embedding of `main.go` (satorunooshie/year-end-review): the start-up
check `init`, the two collector loops of `main`, `PRs.ToMap`, and the render
loop, followed by theorems about them.

Modelling conventions.
* Go strings are Lean `String`s. `int64` PR numbers are `Int`.
* A pointer `*PR` or `*Comment` is an `Option`: `none` is the nil pointer,
  which the JSON decoder stores for a `null` element of a list. Reading a
  field through a nil pointer is a run-time panic.
* `[]*PR` is `List (Option PR)`; the in-place update of `pr.Comments` in the
  comment loop is the replacement of the list element.
* `map[User]PRs` is an association list with distinct keys, in insertion
  order. Go ranges over a map in an unspecified order: the render loop takes
  the sequence of entries it visits, and theorems assume that this sequence
  is a permutation of the map's entries.
* The network is a parameter: for every call it tells what `http.NewRequest`
  and `client.Do` return and what the JSON decoder makes of the body.
* A run is a trace of events plus the way it ended: a return, a `log.Fatal`,
  or a run-time panic.
* The dumps of requests and responses to standard output and to the dump
  files, and the errors of `fp.WriteString` (logged, then ignored), do not
  change the control flow and are left out of the traces.
-/

namespace YearEndReview

/-! ## Data model (main.go 16-53) -/

/-- The Go struct `User`. -/
structure User where
  Login : String
  deriving DecidableEq, Repr

/-- The Go struct `Comment`. -/
structure Comment where
  URL : String
  Body : String
  User : YearEndReview.User
  deriving DecidableEq, Repr

/-- The Go type `Comments []*Comment`; `none` is a nil pointer. -/
abbrev Comments := List (Option Comment)

/-- The Go struct `PR`. -/
structure PR where
  URL : String
  Number : Int
  Title : String
  Body : String
  User : YearEndReview.User
  Comments : YearEndReview.Comments
  deriving DecidableEq, Repr

/-- The Go type `PRs []*PR`; `none` is a nil pointer. -/
abbrev PRs := List (Option PR)

/-- The Go variable `skipCommentUsers`. -/
def skipCommentUsers : List String := ["github-actions[bot]"]

/-- The Go constant `loop`. -/
def loop : Nat := 15

/-- The Go constant `skipCommentsLessThan`. -/
def skipCommentsLessThan : Nat := 3

/-- The Go constant `accessDuration`, `time.Second * 5`, in nanoseconds. -/
def accessDuration : Nat := 1000000000 * 5

/-! ## Go maps keyed by `User` -/

/-- A `map[User]PRs`: association list, insertion order, distinct keys. -/
abbrev PRMap := List (User × PRs)

/-- The expression `m[k]`: the stored value, or the zero value `nil`. -/
def PRMap.get : PRMap → User → PRs
  | [], _ => []
  | (k', v) :: m, k => if k' = k then v else PRMap.get m k

/-- The statement `m[k] = v`: overwrite the entry of `k`, or add one. -/
def PRMap.set : PRMap → User → PRs → PRMap
  | [], k, v => [(k, v)]
  | (k', v') :: m, k, v => if k' = k then (k', v) :: m else (k', v') :: PRMap.set m k v

/-- The two-valued lookup `v, ok := m[k]`. -/
def PRMap.find? : PRMap → User → Option PRs
  | [], _ => none
  | (k', v) :: m, k => if k' = k then some v else PRMap.find? m k

/-- The keys of the map. -/
def PRMap.keys (m : PRMap) : List User := m.map Prod.fst

/-- One iteration of the loop of `ToMap`: `m[v.User] = append(m[v.User], v)`.
Reading `v.User` through a nil `v` panics: the result is `none`. -/
def ToMap.step (m : PRMap) (v : Option PR) : Option PRMap :=
  match v with
  | none => none
  | some p => some (PRMap.set m p.User (PRMap.get m p.User ++ [some p]))

/-- The loop of `ToMap` over the remaining elements, from the map `m`. -/
def ToMap.loop : PRMap → PRs → Option PRMap
  | m, [] => some m
  | m, v :: rest =>
    match ToMap.step m v with
    | none => none
    | some m' => ToMap.loop m' rest

/-- The Go method `PRs.ToMap` (main.go 187-193); `none` when it panics. -/
def PRs.ToMap (r : PRs) : Option PRMap :=
  ToMap.loop [] r

/-- The non-nil elements of `r` whose author is `u`, in the order of `r`. -/
def authoredBy (u : User) (r : PRs) : PRs :=
  r.filter (fun v => decide (v.map (fun p => p.User) = some u))

/-! ## Escaping of the PR body -/

/-- The scan of `strings.Replace(s, old, new, -1)` for a non-empty `old`:
left to right, non-overlapping occurrences. The counter is the number of
characters of an occurrence already matched that are still to be dropped. -/
def replaceFrom (old new : List Char) : Nat → List Char → List Char
  | _, [] => []
  | skip + 1, _ :: cs => replaceFrom old new skip cs
  | 0, c :: cs =>
      if old.isPrefixOf (c :: cs) then new ++ replaceFrom old new (old.length - 1) cs
      else c :: replaceFrom old new 0 cs

/-- Go's standard-library function `strings.ReplaceAll`. -/
def ReplaceAll (s old new : String) : String :=
  if old = new then s
  else if old.data = [] then String.mk (new.data ++ s.data.flatMap (fun c => c :: new.data))
  else String.mk (replaceFrom old.data new.data 0 s.data)

/-- The argument `strings.ReplaceAll(pr.Body, "#", "#####")` of main.go 122. -/
def escapeBody (body : String) : String :=
  ReplaceAll body "#" "#####"

/-! ## The render loop (main.go 108-142) -/

/-- One call of `fp.WriteString` in the render loop, by what it formats. -/
inductive Out where
  | header (u : User)
  | block (pr : PR)
  | comment (c : Comment)
  deriving DecidableEq, Repr

/-- The string passed to `fp.WriteString`: the three `fmt.Sprintf` calls. -/
def Out.text (owner repository : String) : Out → String
  | Out.header u => "## User\n" ++ u.Login ++ "\n"
  | Out.block pr =>
      "### Title\n" ++ pr.Title ++ "\n### URL\nhttps://github.com/" ++ owner ++ "/"
        ++ repository ++ "/pull/" ++ toString pr.Number ++ "\n### Body\n"
        ++ escapeBody pr.Body ++ "\n#### Comments\n"
  | Out.comment c => "##### User\n" ++ c.User.Login ++ "\n" ++ c.Body ++ "\n"

/-- The state of the render loop: the writes made so far, and whether the
loop has died in a nil-pointer panic. The writes made before a panic stay in
the file. -/
structure Rendered where
  out : List Out
  panicked : Bool
  deriving DecidableEq, Repr

/-- A `for _, x := range xs` loop of the renderer: the body runs on every
element in order, from the writes made so far, until one panics. -/
def rangeLoop {α : Type} (body : List Out → α → Rendered) : List Out → List α → Rendered
  | out, [] => { out := out, panicked := false }
  | out, x :: rest =>
    if (body out x).panicked then body out x else rangeLoop body (body out x).out rest

/-- The inner loop of main.go 128-132. Its `continue` continues this loop
itself, so the loop only runs through `skipCommentUsers`; it reads
`comment.User.Login` in every iteration and so panics (`none`) on a nil
comment. -/
def skipLoop (comment : Option Comment) : List String → Option Unit
  | [] => some ()
  | skipUser :: rest =>
    match comment with
    | none => none
    | some c => if c.User.Login = skipUser then skipLoop comment rest else skipLoop comment rest

/-- The body of the loop over `pr.Comments` (main.go 126-140). -/
def renderComment (out : List Out) (comment : Option Comment) : Rendered :=
  match skipLoop comment skipCommentUsers with
  | none => { out := out, panicked := true }
  | some () =>
    match comment with
    | none => { out := out, panicked := true }
    | some c => { out := out ++ [Out.comment c], panicked := false }

/-- The body of the loop over the PRs of one author (main.go 112-141);
`len(pr.Comments)` panics on a nil `pr`. -/
def renderPR (out : List Out) (pr : Option PR) : Rendered :=
  match pr with
  | none => { out := out, panicked := true }
  | some p =>
    if p.Comments.length < skipCommentsLessThan then { out := out, panicked := false }
    else rangeLoop renderComment (out ++ [Out.block p]) p.Comments

/-- The body of the loop over the map (main.go 108-142). -/
def renderUser (out : List Out) (e : User × PRs) : Rendered :=
  rangeLoop renderPR (out ++ [Out.header e.1]) e.2

/-- The render loop, over the entries of the map in the order visited. -/
def render (entries : List (User × PRs)) : Rendered :=
  rangeLoop renderUser [] entries

/-- Whether a write is the header of some author. -/
def Out.isHeader : Out → Bool
  | Out.header _ => true
  | _ => false

/-! ## The network and the two fetch methods (main.go 151-229) -/

/-- What `json.NewDecoder(resp).Decode(&x)` makes of a response body: the
decoded value, or an error together with what the decoder had stored in `x`
when it failed. -/
inductive Decoded (α : Type) where
  | ok (v : α)
  | fail (filled : α) (err : String)
  deriving Repr

/-- The fields of `*http.Response` that the program uses. -/
structure Response (α : Type) where
  StatusCode : Int
  Body : Decoded α
  deriving Repr

/-- What the outside world does with one fetch: `http.NewRequest` fails, or
`client.Do` returns the pair `(resp, err)`, where `resp` may be `nil`. -/
inductive Net (α : Type) where
  | badRequest (err : String)
  | did (resp : Option (Response α)) (err : Option String)
  deriving Repr

/-- An observable event of a run. -/
inductive Event where
  | getPulls (page : Nat)
  | getComments (number : Int)
  | sleep (d : Nat)
  | log (msg : String)
  | write (text : String)
  | fatal (msgs : List String)
  deriving DecidableEq, Repr

/-- How a fetch method ends: a nil-pointer panic, the return `nil, err`, or
the return `resp.Body, nil`. -/
inductive Fetched (α : Type) where
  | panicked
  | failed (err : String)
  | body (b : Decoded α)
  deriving Repr

/-- The Go method `PRs.Fetch` (main.go 151-185). The status code is read
from `resp` (line 165) before `err` is looked at (line 166). -/
def PRs.Fetch (net : Net PRs) (page : Nat) : List Event × Fetched PRs :=
  match net with
  | Net.badRequest err => ([], Fetched.failed err)
  | Net.did resp err =>
    match resp with
    | none => ([Event.getPulls page], Fetched.panicked)
    | some r =>
      match err with
      | some e => ([Event.getPulls page], Fetched.failed e)
      | none => ([Event.getPulls page], Fetched.body r.Body)

/-- The Go method `PR.FetchComments` (main.go 195-229), of the same shape.
The URL is built from `r.Number` (line 196), which panics on a nil `r`. -/
def PR.FetchComments (net : Net YearEndReview.Comments) (r : Option YearEndReview.PR) :
    List Event × Fetched YearEndReview.Comments :=
  match r with
  | none => ([], Fetched.panicked)
  | some pr =>
    match net with
    | Net.badRequest err => ([], Fetched.failed err)
    | Net.did resp err =>
      match resp with
      | none => ([Event.getComments pr.Number], Fetched.panicked)
      | some rsp =>
        match err with
        | some e => ([Event.getComments pr.Number], Fetched.failed e)
        | none => ([Event.getComments pr.Number], Fetched.body rsp.Body)

/-! ## Runs -/

/-- How a run ends. -/
inductive Outcome (α : Type) where
  | returned (v : α)
  | fatal
  | panicked
  deriving Repr, DecidableEq

/-- A run: the events in order, and how it ended. -/
structure Run (α : Type) where
  trace : List Event
  result : Outcome α
  deriving Repr

/-- The run `r` preceded by the events `ev`, its value mapped by `f`. -/
def Run.after {α β : Type} (ev : List Event) (f : α → β) (r : Run α) : Run β :=
  { trace := ev ++ r.trace
    result := match r.result with
      | Outcome.returned v => Outcome.returned (f v)
      | Outcome.fatal => Outcome.fatal
      | Outcome.panicked => Outcome.panicked }

/-! ## The PR collector loop (main.go 72-87) -/

/-- The values of `i` in `for ; i < loop; i++` when started at `i`. -/
def pagesFrom (i : Nat) : List Nat := List.range' i (loop - i)

/-- The loop of main.go 73-87 over the remaining page numbers, from the PRs
collected so far. -/
def collectLoop (net : Nat → Net PRs) : List Nat → PRs → Run PRs
  | [], prs => { trace := [], result := Outcome.returned prs }
  | i :: rest, prs =>
    match PRs.Fetch (net i) i with
    | (ev, Fetched.panicked) => { trace := ev, result := Outcome.panicked }
    | (ev, Fetched.failed e) => { trace := ev ++ [Event.log e], result := Outcome.returned prs }
    | (ev, Fetched.body (Decoded.fail _ e)) =>
        Run.after (ev ++ [Event.log e]) id (collectLoop net rest prs)
    | (ev, Fetched.body (Decoded.ok tmp)) =>
        Run.after (ev ++ [Event.sleep accessDuration]) id (collectLoop net rest (prs ++ tmp))

/-- The PR collector: `var prs PRs; for i := 1; i < loop; i++ { ... }`. -/
def collect (net : Nat → Net PRs) : Run PRs :=
  collectLoop net (pagesFrom 1) []

/-! ## The comment collector loop (main.go 89-100) -/

/-- The loop of main.go 89-100 over the remaining PRs; `k` is the position of
the next PR in the collection. The value is the collection after the loop. -/
def commentLoop (net : Nat → Net Comments) : Nat → PRs → Run PRs
  | _, [] => { trace := [], result := Outcome.returned [] }
  | k, pr :: rest =>
    match PR.FetchComments (net k) pr with
    | (ev, Fetched.panicked) => { trace := ev, result := Outcome.panicked }
    | (ev, Fetched.failed e) =>
        { trace := ev ++ [Event.log e], result := Outcome.returned (pr :: rest) }
    | (ev, Fetched.body (Decoded.fail filled e)) =>
        Run.after (ev ++ [Event.log e, Event.sleep accessDuration])
          (fun done => pr.map (fun p => { p with Comments := filled }) :: done)
          (commentLoop net (k + 1) rest)
    | (ev, Fetched.body (Decoded.ok cs)) =>
        Run.after (ev ++ [Event.sleep accessDuration])
          (fun done => pr.map (fun p => { p with Comments := cs }) :: done)
          (commentLoop net (k + 1) rest)

/-! ## Start-up check (main.go 55-69) -/

/-- Go's `os.Getenv`: the value, or the empty string when unset. -/
def Getenv (env : String → Option String) (key : String) : String :=
  (env key).getD ""

/-- The package variables `token`, `owner`, `repository`. -/
structure Config where
  token : String
  owner : String
  repository : String
  deriving Repr, DecidableEq

/-- The function `init` up to line 65: the variables and the slice `errs`. -/
def init (env : String → Option String) : Config × List String :=
  let errs : List String := []
  let token := Getenv env "TOKEN"
  let errs := if token = "" then errs ++ ["require token"] else errs
  let owner := Getenv env "OWNER"
  let errs := if owner = "" then errs ++ ["require owner"] else errs
  let repository := Getenv env "REPOSITORY"
  let errs := if repository = "" then errs ++ ["require repository"] else errs
  ({ token := token, owner := owner, repository := repository }, errs)

/-- Whether `init` reaches `log.Fatal(errs)`: `len(errs) != 0`. -/
def initFatal (env : String → Option String) : Bool :=
  (init env).2.length != 0

/-! ## The program -/

/-- What the file system answers to `os.OpenFile`, `fp.Sync` and `fp.Close`
on the report file. -/
structure Files where
  openErr : Option String
  syncErr : Option String
  closeErr : Option String
  deriving Repr

/-- The end of `main` (main.go 143-148). -/
def closeReport (fs : Files) : Run Unit :=
  let sync : List Event := match fs.syncErr with
    | some e => [Event.log e]
    | none => []
  match fs.closeErr with
  | some e => { trace := sync ++ [Event.fatal [e]], result := Outcome.fatal }
  | none => { trace := sync, result := Outcome.returned () }

/-- The function `main` from line 102 on, for the collection `prs`; `iter`
is the order in which `range` visits the entries of a map. A panic of
`ToMap` or of the render loop ends the run; the writes made before it stay. -/
def report (cfg : Config) (iter : PRMap → List (User × PRs)) (fs : Files) (prs : PRs) :
    Run Unit :=
  match PRs.ToMap prs with
  | none => { trace := [], result := Outcome.panicked }
  | some prsMap =>
    match fs.openErr with
    | some e => { trace := [Event.fatal [e]], result := Outcome.fatal }
    | none =>
      if (render (iter prsMap)).panicked then
        { trace := (render (iter prsMap)).out.map
            (fun o => Event.write (Out.text cfg.owner cfg.repository o))
          result := Outcome.panicked }
      else
        Run.after ((render (iter prsMap)).out.map
          (fun o => Event.write (Out.text cfg.owner cfg.repository o))) id (closeReport fs)

/-- A run `r`, then the run `f v` for the value `v` that `r` returned. -/
def Run.andThen {α β : Type} (r : Run α) (f : α → Run β) : Run β :=
  match r.result with
  | Outcome.returned v => Run.after r.trace id (f v)
  | Outcome.fatal => { trace := r.trace, result := Outcome.fatal }
  | Outcome.panicked => { trace := r.trace, result := Outcome.panicked }

/-- The function `main`. -/
def main (cfg : Config) (pnet : Nat → Net PRs) (cnet : Nat → Net Comments)
    (iter : PRMap → List (User × PRs)) (fs : Files) : Run Unit :=
  Run.andThen (collect pnet) (fun prs =>
    Run.andThen (commentLoop cnet 0 prs) (fun prs => report cfg iter fs prs))

/-- The process: `init`, then `main` unless `init` was fatal. -/
def program (env : String → Option String) (pnet : Nat → Net PRs)
    (cnet : Nat → Net Comments) (iter : PRMap → List (User × PRs)) (fs : Files) : Run Unit :=
  if initFatal env then { trace := [Event.fatal (init env).2], result := Outcome.fatal }
  else main (init env).1 pnet cnet iter fs

/-- Whether an event is a write to the report file. -/
def Event.isWrite : Event → Bool
  | Event.write _ => true
  | _ => false

/-- Whether an event is an HTTP request. -/
def Event.isRequest : Event → Bool
  | Event.getPulls _ => true
  | Event.getComments _ => true
  | _ => false

/-- Whether every `getPulls` event but the first comes after a sleep of
`accessDuration` since the `getPulls` before it; `slept` tells whether such
a sleep has been seen since the last request. -/
def delayedFrom : Bool → List Event → Bool
  | _, [] => true
  | slept, Event.getPulls _ :: t => slept && delayedFrom false t
  | slept, Event.sleep d :: t => delayedFrom (slept || d == accessDuration) t
  | slept, _ :: t => delayedFrom slept t

/-- Whether a delay of `accessDuration` separates every two consecutive page
requests of a trace. -/
def delayBetweenPageRequests (tr : List Event) : Bool :=
  delayedFrom true tr

/-! ## What the render loop writes when it does not panic -/

/-- The non-nil elements of a list of pointers, in order. -/
def nonNil {α : Type} (l : List (Option α)) : List α :=
  l.filterMap id

/-- The writes of one iteration of the loop over the PRs of an author. -/
def prWrites (pr : PR) : List Out :=
  if pr.Comments.length < skipCommentsLessThan then []
  else Out.block pr :: (nonNil pr.Comments).map Out.comment

/-- The writes of one iteration of the loop over the map. -/
def userWrites (e : User × PRs) : List Out :=
  Out.header e.1 :: (nonNil e.2).flatMap prWrites

/-- A pointer on which the render loop does not panic: a PR, with no nil
comment if it has enough comments to be rendered. -/
def Renderable (v : Option PR) : Prop :=
  ∃ p, v = some p ∧ (skipCommentsLessThan ≤ p.Comments.length → none ∉ p.Comments)

/-! ## What the collectors are to return when no fetch panics -/

/-- The concatenation, in page order, of the lists of the pages decoded
before the first page whose fetch reports an error. -/
def decodedBefore (net : Nat → Net PRs) : List Nat → PRs
  | [] => []
  | i :: rest =>
    match net i with
    | Net.did (some r) none =>
      match r.Body with
      | Decoded.ok tmp => tmp ++ decodedBefore net rest
      | Decoded.fail _ _ => decodedBefore net rest
    | _ => []

/-- The collection with the comments attached to the PRs that come before the
first PR whose fetch reports an error; `k` is the position of the first PR. -/
def attachedBefore (net : Nat → Net Comments) : Nat → PRs → PRs
  | _, [] => []
  | k, pr :: rest =>
    match net k with
    | Net.did (some r) none =>
      match r.Body with
      | Decoded.ok cs =>
          pr.map (fun p => { p with Comments := cs }) :: attachedBefore net (k + 1) rest
      | Decoded.fail filled _ =>
          pr.map (fun p => { p with Comments := filled }) :: attachedBefore net (k + 1) rest
    | _ => pr :: rest

/-! ## Sample data -/

/-- A comment by `login`. -/
def sampleComment (login body : String) : Comment :=
  { URL := "", Body := body, User := { Login := login } }

/-- PR 1, by alice, with five comments. -/
def alicePR : PR :=
  { URL := "", Number := 1, Title := "Add parser", Body := "# Why\nfaster", User := { Login := "alice" },
    Comments := [some (sampleComment "bob" "a"), some (sampleComment "carol" "b"),
      some (sampleComment "bob" "c"), some (sampleComment "alice" "d"),
      some (sampleComment "bob" "e")] }

/-- PR 2, by bob, with one comment. -/
def bobPR : PR :=
  { URL := "", Number := 2, Title := "Fix typo", Body := "", User := { Login := "bob" },
    Comments := [some (sampleComment "alice" "ok")] }

/-- PR 3, by carol, with three comments, the second one by the bot of the
skip list. -/
def botPR : PR :=
  { URL := "", Number := 3, Title := "Bump", Body := "x", User := { Login := "carol" },
    Comments := [some (sampleComment "alice" "a"),
      some (sampleComment "github-actions[bot]" "coverage 80%"),
      some (sampleComment "bob" "c")] }

/-- PR 4, by alice, with three comments, the second one a nil pointer: the
comment list was the JSON `[{...}, null, {...}]`. -/
def nullCommentPR : PR :=
  { URL := "", Number := 4, Title := "Cache", Body := "y", User := { Login := "alice" },
    Comments := [some (sampleComment "bob" "a"), none, some (sampleComment "carol" "c")] }

/-- PR 5, by bob, with three comments, the first one a nil pointer. -/
def nullCommentPRBob : PR :=
  { URL := "", Number := 5, Title := "Docs", Body := "z", User := { Login := "bob" },
    Comments := [none, some (sampleComment "alice" "b"), some (sampleComment "carol" "c")] }

/-- A PR as the listing endpoint delivers it: no comments yet. -/
def listed (pr : PR) : PR := { pr with Comments := [] }

/-- A page that decodes to `prs`. -/
def pageOf (prs : PRs) : Net PRs :=
  Net.did (some { StatusCode := 200, Body := Decoded.ok prs }) none

/-- A connection failure: `client.Do` returns `nil` and an error. -/
def refused (α : Type) : Net α :=
  Net.did none (some "dial tcp: connection refused")

/-- The error of the JSON decoder on an object where a list is expected. -/
def notAListError : String := "json: cannot unmarshal object into Go value of type main.PRs"

/-- A response whose body is a JSON object, not a list. -/
def notAList : Net PRs :=
  Net.did (some { StatusCode := 401, Body := Decoded.fail [] notAListError }) none

/-- A first page with PR 1 and PR 2, then empty pages. -/
def netTwoPRs (i : Nat) : Net PRs :=
  if i = 1 then pageOf [some (listed alicePR), some (listed bobPR)] else pageOf []

/-- Page 1 holds PR 1 and PR 2; the connection fails at page 2. -/
def netRefusedAtTwo (i : Nat) : Net PRs :=
  if i = 1 then pageOf [some (listed alicePR), some (listed bobPR)] else refused PRs

/-- Page 1 is not a list; every later page is an empty list. -/
def netBadFirstPage (i : Nat) : Net PRs :=
  if i = 1 then notAList else pageOf []

/-- Page 1 holds PR 1, page 2 is not a list, page 3 holds PR 2, and the
later pages are empty. -/
def netBadSecondPage (i : Nat) : Net PRs :=
  if i = 1 then pageOf [some (listed alicePR)]
  else if i = 2 then notAList
  else if i = 3 then pageOf [some (listed bobPR)]
  else pageOf []

/-- The comments of the first PR arrive; the connection fails at the second. -/
def cnetRefusedAtSecond (k : Nat) : Net Comments :=
  if k = 0 then Net.did (some { StatusCode := 200, Body := Decoded.ok alicePR.Comments }) none
  else refused Comments

/-- Page 1 is the JSON list `[{PR 1}, null]`; the later pages are empty. -/
def netNullPR (i : Nat) : Net PRs :=
  if i = 1 then pageOf [some (listed alicePR), none] else pageOf []

/-- The first comment request is answered by a redirect that the client
refuses to follow: `client.Do` returns a response and an error. -/
def cnetRedirectFails (_ : Nat) : Net Comments :=
  Net.did (some { StatusCode := 302, Body := Decoded.ok [] }) (some "stopped after 10 redirects")

/-- A file system without errors. -/
def goodFiles : Files := { openErr := none, syncErr := none, closeErr := none }

/-- A configuration. -/
def sampleConfig : Config := { token := "t", owner := "o", repository := "r" }

/-! ## Lemmas on maps -/

theorem PRMap_get_set (m : PRMap) (k k' : User) (v : PRs) :
    PRMap.get (PRMap.set m k v) k' = if k = k' then v else PRMap.get m k' := by
  induction m with
  | nil => simp [PRMap.set, PRMap.get]
  | cons e m ih =>
    obtain ⟨a, b⟩ := e
    by_cases h : a = k
    · subst h
      by_cases h' : a = k' <;> simp [PRMap.set, PRMap.get, h']
    · by_cases h' : a = k'
      · subst h'
        have : ¬ k = a := fun e => h e.symm
        simp [PRMap.set, PRMap.get, h, this]
      · simp [PRMap.set, PRMap.get, h, h', ih]

theorem PRMap_find?_set (m : PRMap) (k k' : User) (v : PRs) :
    PRMap.find? (PRMap.set m k v) k' = if k = k' then some v else PRMap.find? m k' := by
  induction m with
  | nil => simp [PRMap.set, PRMap.find?]
  | cons e m ih =>
    obtain ⟨a, b⟩ := e
    by_cases h : a = k
    · subst h
      by_cases h' : a = k' <;> simp [PRMap.set, PRMap.find?, h']
    · by_cases h' : a = k'
      · subst h'
        have : ¬ k = a := fun e => h e.symm
        simp [PRMap.set, PRMap.find?, h, this]
      · simp [PRMap.set, PRMap.find?, h, h', ih]

theorem PRMap_keys_set (m : PRMap) (k : User) (v : PRs) :
    PRMap.keys (PRMap.set m k v) =
      if k ∈ PRMap.keys m then PRMap.keys m else PRMap.keys m ++ [k] := by
  induction m with
  | nil => simp [PRMap.set, PRMap.keys]
  | cons e m ih =>
    obtain ⟨a, b⟩ := e
    by_cases h : a = k
    · subst h
      simp [PRMap.set, PRMap.keys]
    · have hk : ¬ k = a := fun e => h e.symm
      simp only [PRMap.keys] at ih
      by_cases hm : k ∈ List.map Prod.fst m
      · simp [PRMap.set, PRMap.keys, h, hk, ih, hm]
      · simp [PRMap.set, PRMap.keys, h, hk, ih, hm]

theorem PRMap_nodup_keys_set (m : PRMap) (k : User) (v : PRs)
    (h : (PRMap.keys m).Nodup) : (PRMap.keys (PRMap.set m k v)).Nodup := by
  rw [PRMap_keys_set]
  by_cases hm : k ∈ PRMap.keys m
  · simpa [hm] using h
  · simp only [hm, if_false]
    exact List.Nodup.append h (List.nodup_singleton k) (by simpa using hm)

theorem PRMap_mem_keys_iff_find? (m : PRMap) (k : User) :
    k ∈ PRMap.keys m ↔ PRMap.find? m k ≠ none := by
  induction m with
  | nil => simp [PRMap.keys, PRMap.find?]
  | cons e m ih =>
    obtain ⟨a, b⟩ := e
    simp only [PRMap.keys] at ih
    by_cases h : a = k
    · simp [PRMap.keys, PRMap.find?, h]
    · have hk : ¬ k = a := fun e => h e.symm
      simp [PRMap.keys, PRMap.find?, h, hk, ih]

theorem PRMap_find?_of_mem (m : PRMap) (h : (PRMap.keys m).Nodup) (k : User) (g : PRs)
    (hm : (k, g) ∈ m) : PRMap.find? m k = some g := by
  induction m with
  | nil => simp at hm
  | cons e m ih =>
    obtain ⟨a, b⟩ := e
    simp only [PRMap.keys, List.map_cons, List.nodup_cons] at h
    rcases List.mem_cons.mp hm with heq | hin
    · cases heq
      simp [PRMap.find?]
    · have hne : a ≠ k := by
        intro e
        subst e
        exact h.1 (List.mem_map.mpr ⟨(a, g), hin, rfl⟩)
      simp only [PRMap.find?, hne, if_false]
      exact ih h.2 hin

theorem PRMap_get_eq_find? (m : PRMap) (k : User) :
    PRMap.get m k = (PRMap.find? m k).getD [] := by
  induction m with
  | nil => simp [PRMap.get, PRMap.find?]
  | cons e m ih =>
    obtain ⟨a, b⟩ := e
    by_cases h : a = k <;> simp [PRMap.get, PRMap.find?, h, ih]

/-! ## Lemmas on `ToMap` -/

theorem authoredBy_cons_some (u : User) (p : PR) (r : PRs) :
    authoredBy u (some p :: r)
      = if p.User = u then some p :: authoredBy u r else authoredBy u r := by
  by_cases h : p.User = u <;> simp [authoredBy, List.filter_cons, h]

theorem ToMap_loop_cons_some (m : PRMap) (p : PR) (r : PRs) :
    ToMap.loop m (some p :: r)
      = ToMap.loop (PRMap.set m p.User (PRMap.get m p.User ++ [some p])) r := rfl

theorem ToMap_loop_cons_none (m : PRMap) (r : PRs) : ToMap.loop m (none :: r) = none := rfl

theorem ToMap_loop_eq_none_iff (r : PRs) (m : PRMap) : ToMap.loop m r = none ↔ none ∈ r := by
  induction r generalizing m with
  | nil => simp [ToMap.loop]
  | cons v r ih =>
    cases v with
    | none => simp [ToMap_loop_cons_none]
    | some p => simp [ToMap_loop_cons_some, ih]

theorem ToMap_eq_none_iff (r : PRs) : PRs.ToMap r = none ↔ none ∈ r :=
  ToMap_loop_eq_none_iff r []

theorem ToMap_loop_get (r : PRs) (m m' : PRMap) (u : User) (h : ToMap.loop m r = some m') :
    PRMap.get m' u = PRMap.get m u ++ authoredBy u r := by
  induction r generalizing m with
  | nil =>
    simp only [ToMap.loop, Option.some.injEq] at h
    simp [authoredBy, h]
  | cons v r ih =>
    cases v with
    | none => simp [ToMap_loop_cons_none] at h
    | some p =>
      rw [ToMap_loop_cons_some] at h
      rw [ih _ h, authoredBy_cons_some, PRMap_get_set]
      by_cases hp : p.User = u
      · subst hp
        simp
      · simp [hp]

theorem ToMap_loop_find? (r : PRs) (m m' : PRMap) (u : User) (h : ToMap.loop m r = some m') :
    PRMap.find? m' u =
      if authoredBy u r = [] then PRMap.find? m u
      else some (PRMap.get m u ++ authoredBy u r) := by
  induction r generalizing m with
  | nil =>
    simp only [ToMap.loop, Option.some.injEq] at h
    simp [authoredBy, h]
  | cons v r ih =>
    cases v with
    | none => simp [ToMap_loop_cons_none] at h
    | some p =>
      rw [ToMap_loop_cons_some] at h
      rw [ih _ h, authoredBy_cons_some, PRMap_get_set, PRMap_find?_set]
      by_cases hp : p.User = u
      · subst hp
        by_cases h' : authoredBy p.User r = [] <;> simp [h']
      · simp [hp]

theorem ToMap_loop_nodup (r : PRs) (m m' : PRMap) (h : ToMap.loop m r = some m')
    (hm : (PRMap.keys m).Nodup) : (PRMap.keys m').Nodup := by
  induction r generalizing m with
  | nil =>
    simp only [ToMap.loop, Option.some.injEq] at h
    exact h ▸ hm
  | cons v r ih =>
    cases v with
    | none => simp [ToMap_loop_cons_none] at h
    | some p =>
      rw [ToMap_loop_cons_some] at h
      exact ih _ h (PRMap_nodup_keys_set _ _ _ hm)

theorem ToMap_find? (r : PRs) (m : PRMap) (u : User) (h : PRs.ToMap r = some m) :
    PRMap.find? m u = if authoredBy u r = [] then none else some (authoredBy u r) := by
  rw [ToMap_loop_find? r [] m u h]
  simp [PRMap.find?, PRMap.get]

theorem ToMap_nodup (r : PRs) (m : PRMap) (h : PRs.ToMap r = some m) : (PRMap.keys m).Nodup :=
  ToMap_loop_nodup r [] m h (by simp [PRMap.keys])

theorem ToMap_mem (r : PRs) (m : PRMap) (h : PRs.ToMap r = some m) (k : User) (g : PRs)
    (hm : (k, g) ∈ m) : g = authoredBy k r ∧ g ≠ [] := by
  have hf := PRMap_find?_of_mem _ (ToMap_nodup r m h) k g hm
  rw [ToMap_find? r m k h] at hf
  by_cases he : authoredBy k r = []
  · simp [he] at hf
  · simp only [he, if_false, Option.some.injEq] at hf
    exact ⟨hf.symm, hf ▸ he⟩

theorem mem_authoredBy (u : User) (r : PRs) (v : Option PR) :
    v ∈ authoredBy u r ↔ v ∈ r ∧ ∃ p, v = some p ∧ p.User = u := by
  unfold authoredBy
  rw [List.mem_filter]
  cases v with
  | none => simp
  | some p => simp

theorem authoredBy_eq_nil (u : User) (r : PRs) :
    authoredBy u r = [] ↔ ¬ ∃ p, some p ∈ r ∧ p.User = u := by
  rw [List.eq_nil_iff_forall_not_mem]
  constructor
  · rintro h ⟨p, hp, hu⟩
    exact h (some p) ((mem_authoredBy u r (some p)).mpr ⟨hp, p, rfl, hu⟩)
  · intro h v hv
    obtain ⟨hv1, p, rfl, hu⟩ := (mem_authoredBy u r v).mp hv
    exact h ⟨p, hv1, hu⟩

theorem ToMap_mem_keys_iff (r : PRs) (m : PRMap) (h : PRs.ToMap r = some m) (u : User) :
    u ∈ PRMap.keys m ↔ ∃ p, some p ∈ r ∧ p.User = u := by
  rw [PRMap_mem_keys_iff_find?, ToMap_find? r m u h]
  by_cases he : authoredBy u r = []
  · simpa [he] using (authoredBy_eq_nil u r).mp he
  · have := (authoredBy_eq_nil u r).not.mp he
    simpa [he] using this

theorem set_groups_perm (m : PRMap) (k : User) (v : Option PR) :
    List.Perm ((PRMap.set m k (PRMap.get m k ++ [v])).flatMap Prod.snd)
      (v :: m.flatMap Prod.snd) := by
  induction m with
  | nil => simp [PRMap.set, PRMap.get]
  | cons e m ih =>
    obtain ⟨a, b⟩ := e
    by_cases h : a = k
    · simp only [PRMap.set, PRMap.get, h, if_true, List.flatMap_cons]
      rw [List.append_assoc]
      refine List.Perm.trans (List.Perm.append_left b ?_) List.perm_middle
      simp
    · simp only [PRMap.set, PRMap.get, h, if_false, List.flatMap_cons]
      exact List.Perm.trans (List.Perm.append_left b ih) List.perm_middle

theorem ToMap_loop_groups_perm (r : PRs) (m m' : PRMap) (h : ToMap.loop m r = some m') :
    List.Perm (m'.flatMap Prod.snd) (m.flatMap Prod.snd ++ r) := by
  induction r generalizing m with
  | nil =>
    simp only [ToMap.loop, Option.some.injEq] at h
    simp [h]
  | cons v r ih =>
    cases v with
    | none => simp [ToMap_loop_cons_none] at h
    | some p =>
      rw [ToMap_loop_cons_some] at h
      refine (ih _ h).trans ?_
      refine ((set_groups_perm m p.User (some p)).append_right r).trans ?_
      simpa using (@List.perm_middle _ (some p) (m.flatMap Prod.snd) r).symm

theorem ToMap_groups_perm (r : PRs) (m : PRMap) (h : PRs.ToMap r = some m) :
    List.Perm (m.flatMap Prod.snd) r := by
  simpa using ToMap_loop_groups_perm r [] m h

theorem ToMap_returns (r : PRs) (hnil : none ∉ r) : ∃ m, PRs.ToMap r = some m := by
  cases h : PRs.ToMap r with
  | none => exact absurd ((ToMap_eq_none_iff r).mp h) hnil
  | some m => exact ⟨m, rfl⟩

/-! ## Grouping -/

/-- C1, counterexample: on the collection `[PR 1, nil]`, which `main` passes
to `ToMap` when page 1 is the JSON list `[{PR 1}, null]` and the comment loop
breaks at PR 1, `ToMap` reads `v.User` through the nil pointer and panics: it
returns no map, so alice is mapped to nothing, and `main` writes nothing. -/
theorem ToMap_panics_on_nil_PR :
    PRs.ToMap [some (listed alicePR), none] = none ∧
    (collect netNullPR).result = Outcome.returned [some (listed alicePR), none] ∧
    (commentLoop cnetRedirectFails 0 [some (listed alicePR), none]).result
      = Outcome.returned [some (listed alicePR), none] ∧
    (main sampleConfig netNullPR cnetRedirectFails id goodFiles).result = Outcome.panicked ∧
    (main sampleConfig netNullPR cnetRedirectFails id goodFiles).trace.any Event.isWrite
      = false := by
  refine ⟨rfl, rfl, rfl, rfl, rfl⟩

/-- C1, amended: for every collection `r` without a nil pointer, `ToMap`
returns a map, and the map sends every author `u` to exactly the subsequence of
`r` of the PRs whose author is `u` (order and multiplicity kept); `u` is a key
if and only if it has a PR in `r`; the keys are distinct, so an author has one
group; every group holds only PRs of its key; and a PR of `r` occurs in the
group of its own author as often as in `r` and in no other group. -/
theorem ToMap_groups_by_author (r : PRs) (hnil : none ∉ r) (u : User) :
    ∃ m, PRs.ToMap r = some m ∧
      PRMap.get m u = r.filter (fun v => decide (v.map (fun p => p.User) = some u)) ∧
      PRMap.find? m u
        = (if authoredBy u r = [] then none else some (authoredBy u r)) ∧
      (u ∈ PRMap.keys m ↔ ∃ p, some p ∈ r ∧ p.User = u) ∧
      (PRMap.keys m).Nodup ∧
      (∀ k g, (k, g) ∈ m →
        g = r.filter (fun v => decide (v.map (fun p => p.User) = some k)) ∧
        ∀ v ∈ g, ∃ p, v = some p ∧ p.User = k) ∧
      (∀ p, some p ∈ r →
        List.count (some p) (PRMap.get m p.User) = List.count (some p) r ∧
        ∀ k, k ≠ p.User → some p ∉ PRMap.get m k) := by
  obtain ⟨m, hm⟩ := ToMap_returns r hnil
  have hget : ∀ k, PRMap.get m k = authoredBy k r := by
    intro k
    rw [ToMap_loop_get r [] m k hm]
    simp [PRMap.get]
  refine ⟨m, hm, hget u, ToMap_find? r m u hm, ToMap_mem_keys_iff r m hm u,
    ToMap_nodup r m hm, ?_, ?_⟩
  · intro k g hmem
    have h := (ToMap_mem r m hm k g hmem).1
    refine ⟨h, ?_⟩
    intro v hv
    rw [h] at hv
    exact ((mem_authoredBy k r v).mp hv).2
  · intro p _
    refine ⟨?_, ?_⟩
    · rw [hget, authoredBy, List.count_filter]
      simp
    · intro k hk hp
      rw [hget] at hp
      obtain ⟨_, q, hq, hu⟩ := (mem_authoredBy k r (some p)).mp hp
      cases hq
      exact hk hu.symm

/-- C1, amended, at the collection of PR 1 (alice) and PR 2 (bob), for the
author alice. -/
theorem ToMap_groups_by_author_witness :
    none ∉ [some alicePR, some bobPR] ∧
    ∃ m, PRs.ToMap [some alicePR, some bobPR] = some m ∧
      PRMap.get m alicePR.User
        = [some alicePR, some bobPR].filter
            (fun v => decide (v.map (fun p => p.User) = some alicePR.User)) ∧
      PRMap.find? m alicePR.User
        = (if authoredBy alicePR.User [some alicePR, some bobPR] = [] then none
            else some (authoredBy alicePR.User [some alicePR, some bobPR])) ∧
      (alicePR.User ∈ PRMap.keys m
        ↔ ∃ p, some p ∈ [some alicePR, some bobPR] ∧ p.User = alicePR.User) ∧
      (PRMap.keys m).Nodup ∧
      (∀ k g, (k, g) ∈ m →
        g = [some alicePR, some bobPR].filter
            (fun v => decide (v.map (fun p => p.User) = some k)) ∧
        ∀ v ∈ g, ∃ p, v = some p ∧ p.User = k) ∧
      (∀ p, some p ∈ [some alicePR, some bobPR] →
        List.count (some p) (PRMap.get m p.User)
          = List.count (some p) [some alicePR, some bobPR] ∧
        ∀ k, k ≠ p.User → some p ∉ PRMap.get m k) :=
  ⟨by decide, ToMap_groups_by_author [some alicePR, some bobPR] (by decide) alicePR.User⟩

/-! ## Lemmas on the render loop -/

theorem mem_nonNil {α : Type} (l : List (Option α)) (a : α) : a ∈ nonNil l ↔ some a ∈ l := by
  simp [nonNil, List.mem_filterMap]

theorem nonNil_cons_some {α : Type} (a : α) (l : List (Option α)) :
    nonNil (some a :: l) = a :: nonNil l := by
  simp [nonNil]

theorem nonNil_append {α : Type} (a b : List (Option α)) :
    nonNil (a ++ b) = nonNil a ++ nonNil b := by
  simp [nonNil]

theorem count_nonNil (p : PR) (l : PRs) : List.count p (nonNil l) = List.count (some p) l := by
  induction l with
  | nil => simp [nonNil]
  | cons v l ih =>
    cases v with
    | none => simpa [nonNil, List.count_cons] using ih
    | some q =>
      rw [nonNil_cons_some, List.count_cons, List.count_cons, ih]
      by_cases h : q = p <;> simp [h]

theorem skipLoop_some (c : Comment) (l : List String) : skipLoop (some c) l = some () := by
  induction l with
  | nil => rfl
  | cons s l ih => simp [skipLoop, ih]

theorem renderComment_some (out : List Out) (c : Comment) :
    renderComment out (some c) = { out := out ++ [Out.comment c], panicked := false } := by
  simp [renderComment, skipLoop_some]

theorem renderComment_none (out : List Out) :
    renderComment out none = { out := out, panicked := true } := by
  unfold renderComment
  cases skipLoop none skipCommentUsers <;> rfl

theorem renderComments_ok (cs : Comments) (h : none ∉ cs) (out : List Out) :
    rangeLoop renderComment out cs
      = { out := out ++ (nonNil cs).map Out.comment, panicked := false } := by
  induction cs generalizing out with
  | nil => simp [rangeLoop, nonNil]
  | cons c cs ih =>
    cases c with
    | none => simp at h
    | some c =>
      have hcs : none ∉ cs := fun hm => h (List.mem_cons_of_mem _ hm)
      simp [rangeLoop, renderComment_some, ih hcs, nonNil_cons_some]

theorem renderComments_extends (cs : Comments) (out : List Out) :
    ∃ rest, (rangeLoop renderComment out cs).out = out ++ rest ∧
      ∀ o ∈ rest, ∃ c, o = Out.comment c := by
  induction cs generalizing out with
  | nil => exact ⟨[], by simp [rangeLoop], by simp⟩
  | cons c cs ih =>
    cases c with
    | none => exact ⟨[], by simp [rangeLoop, renderComment_none], by simp⟩
    | some c =>
      obtain ⟨rest, hrest, hall⟩ := ih (out ++ [Out.comment c])
      refine ⟨Out.comment c :: rest, ?_, ?_⟩
      · simp [rangeLoop, renderComment_some, hrest]
      · intro o ho
        rcases List.mem_cons.mp ho with h | h
        · exact ⟨c, h⟩
        · exact hall o h

theorem renderPR_ok (p : PR)
    (h : skipCommentsLessThan ≤ p.Comments.length → none ∉ p.Comments) (out : List Out) :
    renderPR out (some p) = { out := out ++ prWrites p, panicked := false } := by
  unfold renderPR prWrites
  by_cases hs : p.Comments.length < skipCommentsLessThan
  · simp [hs]
  · simp [hs, renderComments_ok p.Comments (h (by omega))]

theorem renderPRs_ok (l : PRs) (h : ∀ v ∈ l, Renderable v) (out : List Out) :
    rangeLoop renderPR out l
      = { out := out ++ (nonNil l).flatMap prWrites, panicked := false } := by
  induction l generalizing out with
  | nil => simp [rangeLoop, nonNil]
  | cons v l ih =>
    obtain ⟨p, hv, hp⟩ := h v (List.mem_cons_self v l)
    subst hv
    have hl : ∀ v ∈ l, Renderable v := fun v hv => h v (List.mem_cons_of_mem _ hv)
    simp [rangeLoop, renderPR_ok p hp, ih hl, nonNil_cons_some]

theorem renderUser_ok (e : User × PRs) (h : ∀ v ∈ e.2, Renderable v) (out : List Out) :
    renderUser out e = { out := out ++ userWrites e, panicked := false } := by
  simp [renderUser, userWrites, renderPRs_ok e.2 h]

theorem renderUsers_ok (entries : List (User × PRs))
    (h : ∀ e ∈ entries, ∀ v ∈ e.2, Renderable v) (out : List Out) :
    rangeLoop renderUser out entries
      = { out := out ++ entries.flatMap userWrites, panicked := false } := by
  induction entries generalizing out with
  | nil => simp [rangeLoop]
  | cons e entries ih =>
    have he := h e (List.mem_cons_self e entries)
    have hrest : ∀ e' ∈ entries, ∀ v ∈ e'.2, Renderable v :=
      fun e' he' => h e' (List.mem_cons_of_mem _ he')
    simp [rangeLoop, renderUser_ok e he, ih hrest]

theorem render_ok (entries : List (User × PRs))
    (h : ∀ e ∈ entries, ∀ v ∈ e.2, Renderable v) :
    render entries = { out := entries.flatMap userWrites, panicked := false } := by
  simpa [render] using renderUsers_ok entries h []

theorem count_block_prWrites (p : PR) (l : List PR) :
    List.count (Out.block p) (l.flatMap prWrites)
      = if p.Comments.length < skipCommentsLessThan then 0 else List.count p l := by
  induction l with
  | nil => simp
  | cons q l ih =>
    rw [List.flatMap_cons, List.count_append, ih]
    have hcs : List.count (Out.block p) ((nonNil q.Comments).map Out.comment) = 0 := by
      rw [List.count_eq_zero]
      simp
    by_cases hq : q.Comments.length < skipCommentsLessThan
    · by_cases hp : p.Comments.length < skipCommentsLessThan
      · simp [prWrites, hq, hp]
      · have : q ≠ p := by
          rintro rfl
          exact hp hq
        simp [prWrites, hq, hp, List.count_cons, this]
    · by_cases hp : p.Comments.length < skipCommentsLessThan
      · have : q ≠ p := by
          rintro rfl
          exact hq hp
        simp [prWrites, hq, hp, List.count_cons, hcs, this]
      · by_cases e : q = p
        · subst e
          simp [prWrites, hq, List.count_cons, hcs, Nat.add_comm]
        · simp [prWrites, hq, hp, List.count_cons, hcs, e]

theorem count_block_userWrites (p : PR) (entries : List (User × PRs)) :
    List.count (Out.block p) (entries.flatMap userWrites)
      = List.count (Out.block p) ((nonNil (entries.flatMap Prod.snd)).flatMap prWrites) := by
  induction entries with
  | nil => simp [nonNil]
  | cons e entries ih =>
    simp [List.flatMap_cons, List.count_append, ih, userWrites, List.count_cons, nonNil_append]

theorem count_header_prWrites (u : User) (l : List PR) :
    List.count (Out.header u) (l.flatMap prWrites) = 0 := by
  rw [List.count_eq_zero]
  intro h
  obtain ⟨q, _, hq⟩ := List.mem_flatMap.mp h
  unfold prWrites at hq
  by_cases hs : q.Comments.length < skipCommentsLessThan
  · simp [hs] at hq
  · simp [hs] at hq

theorem count_header_userWrites (u : User) (entries : List (User × PRs)) :
    List.count (Out.header u) (entries.flatMap userWrites)
      = List.count u (entries.map Prod.fst) := by
  induction entries with
  | nil => simp
  | cons e entries ih =>
    obtain ⟨k, g⟩ := e
    rw [List.flatMap_cons, List.count_append, ih, userWrites]
    by_cases h : k = u
    · subst h
      simp [List.count_cons, count_header_prWrites, Nat.add_comm]
    · simp [List.count_cons, count_header_prWrites, h]

theorem userWrites_head_isHeader (entries : List (User × PRs)) (o : Out)
    (h : (entries.flatMap userWrites).head? = some o) : o.isHeader = true := by
  cases entries with
  | nil => simp at h
  | cons e rest =>
    simp only [List.flatMap_cons, userWrites, List.cons_append, List.head?_cons,
      Option.some.injEq] at h
    subst h
    rfl

theorem entries_renderable (prs : PRs) (m : PRMap) (hm : PRs.ToMap prs = some m)
    (hnil : none ∉ prs)
    (hc : ∀ q, some q ∈ prs → 3 ≤ q.Comments.length → none ∉ q.Comments)
    (entries : List (User × PRs)) (h : List.Perm entries m) :
    ∀ e ∈ entries, ∀ v ∈ e.2, Renderable v := by
  intro e he v hv
  have hin : v ∈ prs := by
    have : v ∈ m.flatMap Prod.snd :=
      List.mem_flatMap.mpr ⟨e, h.mem_iff.mp he, hv⟩
    exact (ToMap_groups_perm prs m hm).mem_iff.mp this
  cases v with
  | none => exact absurd hin hnil
  | some p => exact ⟨p, rfl, hc p hin⟩

/-! ## The render loop never writes the block of a PR with fewer than 3 comments -/

theorem rangeLoop_all {α : Type} (P : Out → Prop) (body : List Out → α → Rendered)
    (hb : ∀ out x, (∀ o ∈ out, P o) → ∀ o ∈ (body out x).out, P o)
    (l : List α) (out : List Out) (h : ∀ o ∈ out, P o) :
    ∀ o ∈ (rangeLoop body out l).out, P o := by
  induction l generalizing out with
  | nil => simpa [rangeLoop] using h
  | cons x l ih =>
    unfold rangeLoop
    by_cases hp : (body out x).panicked = true
    · simpa [hp] using hb out x h
    · simp only [hp]
      exact ih _ (hb out x h)

theorem block_never_written_below_three (entries : List (User × PRs)) (p : PR)
    (hp : p.Comments.length < 3) : Out.block p ∉ (render entries).out := by
  have hC : ∀ out (c : Option Comment), (∀ o ∈ out, o ≠ Out.block p) →
      ∀ o ∈ (renderComment out c).out, o ≠ Out.block p := by
    intro out c h o ho
    cases c with
    | none =>
      rw [renderComment_none] at ho
      exact h o ho
    | some c =>
      rw [renderComment_some] at ho
      rcases List.mem_append.mp ho with h1 | h1
      · exact h o h1
      · simp at h1
        simp [h1]
  have hP : ∀ out (v : Option PR), (∀ o ∈ out, o ≠ Out.block p) →
      ∀ o ∈ (renderPR out v).out, o ≠ Out.block p := by
    intro out v h
    cases v with
    | none => simpa [renderPR] using h
    | some q =>
      unfold renderPR
      by_cases hq : q.Comments.length < skipCommentsLessThan
      · simpa [hq] using h
      · simp only [hq, if_false]
        apply rangeLoop_all (fun o => o ≠ Out.block p) renderComment hC
        intro o ho
        rcases List.mem_append.mp ho with h1 | h1
        · exact h o h1
        · simp at h1
          subst h1
          intro e
          cases e
          exact hq hp
  have hU : ∀ out (e : User × PRs), (∀ o ∈ out, o ≠ Out.block p) →
      ∀ o ∈ (renderUser out e).out, o ≠ Out.block p := by
    intro out e h
    unfold renderUser
    apply rangeLoop_all (fun o => o ≠ Out.block p) renderPR hP
    intro o ho
    rcases List.mem_append.mp ho with h1 | h1
    · exact h o h1
    · simp at h1
      simp [h1]
  intro hmem
  exact rangeLoop_all (fun o => o ≠ Out.block p) renderUser hU entries [] (by simp) _ hmem rfl

/-! ## The comment-count filter -/

/-- C2, counterexample: alice has PR 4, with the comments `[c, nil, c]`, and
PR 1, with five comments. The map has one key, so there is one visiting order.
The render loop writes alice's header, the block of PR 4 and its first
comment, then panics on the nil comment: PR 1 has at least 3 comments and its
block is never written. -/
theorem block_missing_after_nil_comment :
    PRs.ToMap [some nullCommentPR, some alicePR]
      = some [({ Login := "alice" }, [some nullCommentPR, some alicePR])] ∧
    render [({ Login := "alice" }, [some nullCommentPR, some alicePR])]
      = { out := [Out.header { Login := "alice" }, Out.block nullCommentPR,
            Out.comment (sampleComment "bob" "a")],
          panicked := true } ∧
    some alicePR ∈ [some nullCommentPR, some alicePR] ∧
    3 ≤ alicePR.Comments.length ∧
    Out.block alicePR
      ∉ (render [({ Login := "alice" }, [some nullCommentPR, some alicePR])]).out := by
  have h : render [({ Login := "alice" }, [some nullCommentPR, some alicePR])]
      = { out := [Out.header { Login := "alice" }, Out.block nullCommentPR,
            Out.comment (sampleComment "bob" "a")],
          panicked := true } := rfl
  refine ⟨rfl, h, by simp, by decide, ?_⟩
  rw [h]
  decide

/-- C2, amended: when the collection holds no nil PR and no PR of at least 3
comments holds a nil comment, `ToMap` returns a map and, in whatever order the
map is visited, the render loop does not panic and writes the Title/URL/Body
block of a PR `p` if and only if `p` was collected and has at least 3 comments,
once per occurrence of `p` in the collection. The loop body leaves the output
unchanged on a PR with fewer than 3 comments and appends the block, before
anything else, on a PR with at least 3 comments. -/
theorem block_written_iff_three_comments (prs : PRs) (hnil : none ∉ prs)
    (hc : ∀ q, some q ∈ prs → 3 ≤ q.Comments.length → none ∉ q.Comments) (p : PR) :
    ∃ m, PRs.ToMap prs = some m ∧
      ∀ entries, List.Perm entries m →
        (render entries).panicked = false ∧
        (Out.block p ∈ (render entries).out ↔ some p ∈ prs ∧ 3 ≤ p.Comments.length) ∧
        List.count (Out.block p) (render entries).out
          = (if p.Comments.length < 3 then 0 else List.count (some p) prs) ∧
        (p.Comments.length < 3 →
          ∀ out, renderPR out (some p) = { out := out, panicked := false }) ∧
        (3 ≤ p.Comments.length →
          ∀ out, ∃ rest, (renderPR out (some p)).out = out ++ Out.block p :: rest ∧
            ∀ o ∈ rest, ∃ c, o = Out.comment c) := by
  obtain ⟨m, hm⟩ := ToMap_returns prs hnil
  refine ⟨m, hm, ?_⟩
  intro entries h
  have hr := render_ok entries (entries_renderable prs m hm hnil hc entries h)
  have hperm : List.Perm (nonNil (entries.flatMap Prod.snd)) (nonNil prs) :=
    List.Perm.filterMap id ((List.Perm.flatMap_right Prod.snd h).trans
      (ToMap_groups_perm prs m hm))
  have hcount : List.count (Out.block p) (render entries).out
      = (if p.Comments.length < 3 then 0 else List.count (some p) prs) := by
    rw [hr]
    simp only
    rw [count_block_userWrites, count_block_prWrites, hperm.count_eq, count_nonNil]
    rfl
  refine ⟨by rw [hr], ?_, hcount, ?_, ?_⟩
  · rw [← List.count_pos_iff, hcount]
    by_cases hp : p.Comments.length < 3
    · simp [hp]
    · simp only [hp, if_false, List.count_pos_iff]
      constructor
      · intro hmem
        exact ⟨hmem, by omega⟩
      · intro hmem
        exact hmem.1
  · intro hp out
    simp [renderPR, skipCommentsLessThan, hp]
  · intro hp out
    have hlt : ¬ p.Comments.length < skipCommentsLessThan := by
      simp only [skipCommentsLessThan]
      omega
    obtain ⟨rest, hrest, hall⟩ := renderComments_extends p.Comments (out ++ [Out.block p])
    refine ⟨rest, ?_, hall⟩
    simp only [renderPR, hlt, if_false, hrest]
    simp

/-- C2, amended, at the collection of PR 1 (alice, five comments) and PR 2
(bob, one comment), for the block of PR 1. -/
theorem block_written_iff_three_comments_witness :
    none ∉ [some alicePR, some bobPR] ∧
    (∀ q, some q ∈ [some alicePR, some bobPR] → 3 ≤ q.Comments.length → none ∉ q.Comments) ∧
    ∃ m, PRs.ToMap [some alicePR, some bobPR] = some m ∧
      ∀ entries, List.Perm entries m →
        (render entries).panicked = false ∧
        (Out.block alicePR ∈ (render entries).out
          ↔ some alicePR ∈ [some alicePR, some bobPR] ∧ 3 ≤ alicePR.Comments.length) ∧
        List.count (Out.block alicePR) (render entries).out
          = (if alicePR.Comments.length < 3 then 0
              else List.count (some alicePR) [some alicePR, some bobPR]) ∧
        (alicePR.Comments.length < 3 →
          ∀ out, renderPR out (some alicePR) = { out := out, panicked := false }) ∧
        (3 ≤ alicePR.Comments.length →
          ∀ out, ∃ rest, (renderPR out (some alicePR)).out = out ++ Out.block alicePR :: rest ∧
            ∀ o ∈ rest, ∃ c, o = Out.comment c) :=
  have hc : ∀ q, some q ∈ [some alicePR, some bobPR] → 3 ≤ q.Comments.length →
      none ∉ q.Comments := by
    intro q hq hlen
    simp only [List.mem_cons, Option.some.injEq, List.mem_singleton, List.not_mem_nil,
      or_false] at hq
    rcases hq with rfl | rfl
    · decide
    · exact absurd hlen (by decide)
  ⟨by decide, hc, block_written_iff_three_comments [some alicePR, some bobPR] (by decide) hc alicePR⟩

/-! ## Author headers -/

/-- C8, counterexample: alice has PR 4, with the comments `[c, nil, c]`, and
bob has PR 5, with the comments `[nil, c, c]`. In either visiting order of the
two keys the render loop panics at the nil comment of the author visited
first, so the author visited second, who has a collected PR, gets no header. -/
theorem header_missing_after_nil_comment :
    PRs.ToMap [some nullCommentPR, some nullCommentPRBob]
      = some [({ Login := "alice" }, [some nullCommentPR]),
          ({ Login := "bob" }, [some nullCommentPRBob])] ∧
    render [({ Login := "alice" }, [some nullCommentPR]),
        ({ Login := "bob" }, [some nullCommentPRBob])]
      = { out := [Out.header { Login := "alice" }, Out.block nullCommentPR,
            Out.comment (sampleComment "bob" "a")],
          panicked := true } ∧
    List.count (Out.header { Login := "bob" })
      (render [({ Login := "alice" }, [some nullCommentPR]),
        ({ Login := "bob" }, [some nullCommentPRBob])]).out = 0 ∧
    render [({ Login := "bob" }, [some nullCommentPRBob]),
        ({ Login := "alice" }, [some nullCommentPR])]
      = { out := [Out.header { Login := "bob" }, Out.block nullCommentPRBob],
          panicked := true } ∧
    List.count (Out.header { Login := "alice" })
      (render [({ Login := "bob" }, [some nullCommentPRBob]),
        ({ Login := "alice" }, [some nullCommentPR])]).out = 0 := by
  have h1 : render [({ Login := "alice" }, [some nullCommentPR]),
        ({ Login := "bob" }, [some nullCommentPRBob])]
      = { out := [Out.header { Login := "alice" }, Out.block nullCommentPR,
            Out.comment (sampleComment "bob" "a")],
          panicked := true } := rfl
  have h2 : render [({ Login := "bob" }, [some nullCommentPRBob]),
        ({ Login := "alice" }, [some nullCommentPR])]
      = { out := [Out.header { Login := "bob" }, Out.block nullCommentPRBob],
          panicked := true } := rfl
  refine ⟨rfl, h1, ?_, h2, ?_⟩
  · rw [h1]
    decide
  · rw [h2]
    decide

/-- C8, amended: when the collection holds no nil PR and no PR of at least 3
comments holds a nil comment, `ToMap` returns a map and, in whatever order the
map is visited, the render loop does not panic and writes the header of an
author (the text "## User\n<login>\n") exactly once if the author has a
collected PR and never otherwise, whatever the comment counts; when all PRs of
such an author have fewer than 3 comments, the header is directly followed by
the header of another author or by the end of the output, so by no PR block. -/
theorem header_once_per_author (prs : PRs) (hnil : none ∉ prs)
    (hc : ∀ q, some q ∈ prs → 3 ≤ q.Comments.length → none ∉ q.Comments)
    (u : User) (owner repository : String) :
    ∃ m, PRs.ToMap prs = some m ∧
      ∀ entries, List.Perm entries m →
        (render entries).panicked = false ∧
        List.count (Out.header u) (render entries).out
          = (if u ∈ (nonNil prs).map (fun p => p.User) then 1 else 0) ∧
        Out.text owner repository (Out.header u) = "## User\n" ++ u.Login ++ "\n" ∧
        (u ∈ (nonNil prs).map (fun p => p.User) →
          (∀ p, some p ∈ prs → p.User = u → p.Comments.length < 3) →
          ∃ pre post, (render entries).out = pre ++ Out.header u :: post ∧
            ∀ o, post.head? = some o → o.isHeader = true) := by
  obtain ⟨m, hm⟩ := ToMap_returns prs hnil
  refine ⟨m, hm, ?_⟩
  intro entries h
  have hr := render_ok entries (entries_renderable prs m hm hnil hc entries h)
  have hkeys : List.Perm (entries.map Prod.fst) (PRMap.keys m) := h.map Prod.fst
  have hiff : u ∈ PRMap.keys m ↔ u ∈ (nonNil prs).map (fun p => p.User) := by
    rw [ToMap_mem_keys_iff prs m hm u]
    simp [mem_nonNil]
  refine ⟨by rw [hr], ?_, rfl, ?_⟩
  · rw [hr]
    simp only
    rw [count_header_userWrites, hkeys.count_eq]
    by_cases hu : u ∈ (nonNil prs).map (fun p => p.User)
    · rw [if_pos hu]
      exact List.count_eq_one_of_mem (ToMap_nodup prs m hm) (hiff.mpr hu)
    · rw [if_neg hu]
      exact List.count_eq_zero.mpr (fun hmem => hu (hiff.mp hmem))
  · intro hu hsmall
    have hk : u ∈ entries.map Prod.fst := hkeys.mem_iff.mpr (hiff.mpr hu)
    obtain ⟨e, he, hfst⟩ := List.mem_map.mp hk
    obtain ⟨k, g⟩ := e
    simp only at hfst
    subst hfst
    obtain ⟨e1, e2, hsplit⟩ := List.append_of_mem he
    have hg : g = authoredBy k prs := (ToMap_mem prs m hm k g (h.mem_iff.mp he)).1
    have hempty : (nonNil g).flatMap prWrites = [] := by
      rw [List.flatMap_eq_nil_iff]
      intro p hp
      have hp1 : some p ∈ g := (mem_nonNil g p).mp hp
      rw [hg] at hp1
      obtain ⟨hin, q, hq, hqu⟩ := (mem_authoredBy k prs (some p)).mp hp1
      cases hq
      have hlt := hsmall p hin hqu
      simp [prWrites, skipCommentsLessThan, hlt]
    refine ⟨e1.flatMap userWrites, e2.flatMap userWrites, ?_,
      fun o ho => userWrites_head_isHeader e2 o ho⟩
    rw [hr]
    simp only
    rw [hsplit, List.flatMap_append, List.flatMap_cons, userWrites, hempty]
    simp

/-- C8, amended, at the collection of PR 1 (alice, five comments) and PR 2
(bob, one comment), for the author bob. -/
theorem header_once_per_author_witness :
    none ∉ [some alicePR, some bobPR] ∧
    (∀ q, some q ∈ [some alicePR, some bobPR] → 3 ≤ q.Comments.length → none ∉ q.Comments) ∧
    ∃ m, PRs.ToMap [some alicePR, some bobPR] = some m ∧
      ∀ entries, List.Perm entries m →
        (render entries).panicked = false ∧
        List.count (Out.header { Login := "bob" }) (render entries).out
          = (if ({ Login := "bob" } : User)
                ∈ (nonNil [some alicePR, some bobPR]).map (fun p => p.User)
              then 1 else 0) ∧
        Out.text "o" "r" (Out.header { Login := "bob" }) = "## User\n" ++ "bob" ++ "\n" ∧
        (({ Login := "bob" } : User)
            ∈ (nonNil [some alicePR, some bobPR]).map (fun p => p.User) →
          (∀ p, some p ∈ [some alicePR, some bobPR] → p.User = { Login := "bob" } →
            p.Comments.length < 3) →
          ∃ pre post, (render entries).out = pre ++ Out.header { Login := "bob" } :: post ∧
            ∀ o, post.head? = some o → o.isHeader = true) :=
  have hc : ∀ q, some q ∈ [some alicePR, some bobPR] → 3 ≤ q.Comments.length →
      none ∉ q.Comments := by
    intro q hq hlen
    simp only [List.mem_cons, Option.some.injEq, List.mem_singleton, List.not_mem_nil,
      or_false] at hq
    rcases hq with rfl | rfl
    · decide
    · exact absurd hlen (by decide)
  ⟨by decide, hc,
    header_once_per_author [some alicePR, some bobPR] (by decide) hc { Login := "bob" } "o" "r"⟩

/-! ## The skip list -/

/-- C6: the skip list is not applied. On PR 3, which has three comments, the
second by "github-actions[bot]", a login of `skipCommentUsers`, the render
loop writes the "##### User" entry of that comment like the other two. -/
theorem skip_list_comment_is_written :
    "github-actions[bot]" ∈ skipCommentUsers ∧
    3 ≤ botPR.Comments.length ∧
    PRs.ToMap [some botPR] = some [({ Login := "carol" }, [some botPR])] ∧
    render [({ Login := "carol" }, [some botPR])]
      = { out := [Out.header { Login := "carol" }, Out.block botPR,
            Out.comment (sampleComment "alice" "a"),
            Out.comment (sampleComment "github-actions[bot]" "coverage 80%"),
            Out.comment (sampleComment "bob" "c")],
          panicked := false } ∧
    Out.text "o" "r" (Out.comment (sampleComment "github-actions[bot]" "coverage 80%"))
      = "##### User\ngithub-actions[bot]\ncoverage 80%\n" := by
  refine ⟨by simp [skipCommentUsers], by decide, rfl, rfl, by decide⟩

/-! ## Escaping -/

theorem replaceFrom_hash (new : List Char) (l : List Char) :
    replaceFrom ['#'] new 0 l = l.flatMap (fun c => if c = '#' then new else [c]) := by
  induction l with
  | nil => simp [replaceFrom]
  | cons c cs ih =>
    by_cases h : c = '#'
    · subst h
      simp [replaceFrom, List.isPrefixOf, ih]
    · have h' : ¬ '#' = c := fun e => h e.symm
      simp [replaceFrom, List.isPrefixOf, ih, h, h']

theorem escapeBody_data (b : String) :
    (escapeBody b).data
      = b.data.flatMap (fun c => if c = '#' then ['#', '#', '#', '#', '#'] else [c]) := by
  have h1 : ¬ ("#" : String) = "#####" := by decide
  have h2 : ¬ ("#" : String).data = [] := by decide
  simp only [escapeBody, ReplaceAll, h1, h2, if_false]
  exact replaceFrom_hash _ _

theorem length_flatMap_hash (l : List Char) :
    (l.flatMap (fun c => if c = '#' then ['#', '#', '#', '#', '#'] else [c])).length
      = l.length + 4 * l.count '#' := by
  induction l with
  | nil => simp
  | cons c cs ih =>
    rw [List.flatMap_cons, List.length_append, ih]
    by_cases h : c = '#'
    · subst h
      simp
      omega
    · have : ¬ (c == '#') = true := by simpa using h
      simp [h, List.count_cons, this]
      omega

theorem utf8ByteSize_flatMap_hash (l : List Char) :
    String.utf8ByteSize.go
        (l.flatMap (fun c => if c = '#' then ['#', '#', '#', '#', '#'] else [c]))
      = String.utf8ByteSize.go l + 4 * l.count '#' := by
  have hsz : Char.utf8Size '#' = 1 := by decide
  have happ : ∀ a b : List Char,
      String.utf8ByteSize.go (a ++ b) = String.utf8ByteSize.go a + String.utf8ByteSize.go b := by
    intro a b
    induction a with
    | nil => simp [String.utf8ByteSize.go]
    | cons x a ih => simp [String.utf8ByteSize.go, ih]; omega
  induction l with
  | nil => simp [String.utf8ByteSize.go]
  | cons c cs ih =>
    rw [List.flatMap_cons, happ, ih]
    by_cases h : c = '#'
    · subst h
      simp [String.utf8ByteSize.go, hsz]
      omega
    · have : ¬ (c == '#') = true := by simpa using h
      simp [h, List.count_cons, this, String.utf8ByteSize.go]
      omega

/-- C3: the body text written for a PR is `strings.ReplaceAll(b, "#", "#####")`,
which is `b` with every character '#' replaced by the five characters "#####"
and every other character kept, in order: the concatenation over the characters
`c` of `b` of "#####" when `c` is '#' and of `c` otherwise. Its length, in
characters and in UTF-8 bytes, is that of `b` plus 4 for every '#' of `b`. -/
theorem body_hash_escaped (b : String) :
    (escapeBody b).data
      = b.data.flatMap (fun c => if c = '#' then "#####".data else [c]) ∧
    (escapeBody b).length = b.length + 4 * b.data.count '#' ∧
    (escapeBody b).utf8ByteSize = b.utf8ByteSize + 4 * b.data.count '#' ∧
    (∀ (owner repository : String) (pr : PR),
      Out.text owner repository (Out.block { pr with Body := b })
        = "### Title\n" ++ pr.Title ++ "\n### URL\nhttps://github.com/" ++ owner ++ "/"
          ++ repository ++ "/pull/" ++ toString pr.Number ++ "\n### Body\n"
          ++ String.mk (b.data.flatMap (fun c => if c = '#' then "#####".data else [c]))
          ++ "\n#### Comments\n") := by
  have hd := escapeBody_data b
  have hlit : ("#####" : String).data = ['#', '#', '#', '#', '#'] := rfl
  rw [hlit]
  refine ⟨hd, ?_, ?_, ?_⟩
  · rw [String.length, hd, length_flatMap_hash]
    rfl
  · have : ∀ s : String, s.utf8ByteSize = String.utf8ByteSize.go s.data := fun s => rfl
    rw [this, this, hd, utf8ByteSize_flatMap_hash]
  · intro owner repository pr
    rw [← hd]
    rfl

/-! ## The start-up check -/

theorem Getenv_eq_empty (env : String → Option String) (key : String) :
    Getenv env key = "" ↔ env key = none ∨ env key = some "" := by
  unfold Getenv
  cases h : env key with
  | none => simp
  | some v => simp

/-- C9: `init` is fatal if and only if one of TOKEN, OWNER, REPOSITORY is
empty or unset; the reported list holds one error per missing variable, and
only for those, in the order "require token", "require owner", "require
repository"; and a fatal `init` is the whole run: one failure carrying that
list, with no HTTP request in the trace. -/
theorem init_fatal_iff_variable_missing (env : String → Option String) :
    (initFatal env = true ↔
      (env "TOKEN" = none ∨ env "TOKEN" = some "") ∨
      (env "OWNER" = none ∨ env "OWNER" = some "") ∨
      (env "REPOSITORY" = none ∨ env "REPOSITORY" = some "")) ∧
    (init env).2
      = ([("TOKEN", "require token"), ("OWNER", "require owner"),
          ("REPOSITORY", "require repository")].filter
            (fun kv => decide (env kv.1 = none ∨ env kv.1 = some ""))).map Prod.snd ∧
    (∀ pnet cnet iter fs, initFatal env = true →
      (program env pnet cnet iter fs).trace = [Event.fatal (init env).2] ∧
      (program env pnet cnet iter fs).result = Outcome.fatal ∧
      ∀ e ∈ (program env pnet cnet iter fs).trace, e.isRequest = false) := by
  have ht := Getenv_eq_empty env "TOKEN"
  have ho := Getenv_eq_empty env "OWNER"
  have hr := Getenv_eq_empty env "REPOSITORY"
  refine ⟨?_, ?_, ?_⟩
  · rw [← ht, ← ho, ← hr]
    unfold initFatal init
    by_cases h1 : Getenv env "TOKEN" = "" <;> by_cases h2 : Getenv env "OWNER" = "" <;>
      by_cases h3 : Getenv env "REPOSITORY" = "" <;> simp [h1, h2, h3]
  · simp only [← ht, ← ho, ← hr, List.filter_cons, List.filter_nil]
    unfold init
    by_cases h1 : Getenv env "TOKEN" = "" <;> by_cases h2 : Getenv env "OWNER" = "" <;>
      by_cases h3 : Getenv env "REPOSITORY" = "" <;> simp [h1, h2, h3]
  · intro pnet cnet iter fs hf
    simp [program, hf, Event.isRequest]

/-! ## The PR collector -/

theorem pagesFrom_eq_cons (i : Nat) (h : i < loop) : pagesFrom i = i :: pagesFrom (i + 1) := by
  unfold pagesFrom
  have : loop - i = (loop - (i + 1)) + 1 := by omega
  rw [this, List.range'_succ]

theorem Run_after_id (ev : List Event) (r : Run PRs) :
    (Run.after ev id r).result = r.result ∧ (Run.after ev id r).trace = ev ++ r.trace := by
  unfold Run.after
  cases r.result <;> simp

theorem collectLoop_congr (net net' : Nat → Net PRs) (pages : List Nat)
    (h : ∀ i ∈ pages, net i = net' i) (prs : PRs) :
    collectLoop net pages prs = collectLoop net' pages prs := by
  induction pages generalizing prs with
  | nil => rfl
  | cons i rest ih =>
    have hi : net i = net' i := h i (List.mem_cons_self i rest)
    have hrest : ∀ prs, collectLoop net rest prs = collectLoop net' rest prs :=
      fun prs => ih (fun j hj => h j (List.mem_cons_of_mem i hj)) prs
    simp only [collectLoop, hi, hrest]

/-- C4: a connection failure crashes the collector. With PR 1 and PR 2 decoded
from page 1 and `client.Do` returning `nil` and an error at page 2, `Fetch`
dereferences the nil response: the loop does not break, the run ends in a
panic after the second request, and `main` neither fetches a comment nor
writes anything of the two PRs collected. -/
theorem collector_panics_on_connection_failure :
    (collect netRefusedAtTwo).result = Outcome.panicked ∧
    (collect netRefusedAtTwo).result
      ≠ Outcome.returned [some (listed alicePR), some (listed bobPR)] ∧
    (collect netRefusedAtTwo).trace
      = [Event.getPulls 1, Event.sleep accessDuration, Event.getPulls 2] ∧
    (main sampleConfig netRefusedAtTwo cnetRefusedAtSecond id goodFiles).result
      = Outcome.panicked ∧
    (main sampleConfig netRefusedAtTwo cnetRefusedAtSecond id goodFiles).trace
      = [Event.getPulls 1, Event.sleep accessDuration, Event.getPulls 2] := by
  have h : collect netRefusedAtTwo
      = { trace := [Event.getPulls 1, Event.sleep accessDuration, Event.getPulls 2],
          result := Outcome.panicked } := rfl
  refine ⟨by rw [h], by rw [h]; simp, by rw [h], ?_, ?_⟩
  · simp [main, Run.andThen, h]
  · simp [main, Run.andThen, h]

/-- C5: when the body of page `i` fails to decode, whatever the decoder had
stored before failing, the collector loop from page `i` is the request of page
`i` and a log line followed by the loop from page `i + 1` with the same
collected PRs: nothing is appended, what was collected is unchanged, the next
request is that of page `i + 1` when there is one, and the collector ends as
if page `i` had been an empty list. -/
theorem decode_failure_skips_page (net : Nat → Net PRs) (i : Nat) (prs : PRs)
    (status : Int) (filled : PRs) (e : String) (hi : i < loop)
    (h : net i = Net.did (some { StatusCode := status, Body := Decoded.fail filled e }) none) :
    (collectLoop net (pagesFrom i) prs).trace
      = [Event.getPulls i, Event.log e] ++ (collectLoop net (pagesFrom (i + 1)) prs).trace ∧
    (collectLoop net (pagesFrom i) prs).result
      = (collectLoop net (pagesFrom (i + 1)) prs).result ∧
    (i + 1 < loop → ∀ resp err, net (i + 1) = Net.did resp err →
      (collectLoop net (pagesFrom i) prs).trace.take 3
        = [Event.getPulls i, Event.log e, Event.getPulls (i + 1)]) ∧
    (collectLoop net (pagesFrom i) prs).result
      = (collectLoop (Function.update net i (pageOf [])) (pagesFrom i) prs).result := by
  have hstep : collectLoop net (pagesFrom i) prs
      = Run.after [Event.getPulls i, Event.log e] id (collectLoop net (pagesFrom (i + 1)) prs) := by
    rw [pagesFrom_eq_cons i hi]
    simp [collectLoop, PRs.Fetch, h]
  have hres := (Run_after_id [Event.getPulls i, Event.log e]
    (collectLoop net (pagesFrom (i + 1)) prs)).1
  have htr := (Run_after_id [Event.getPulls i, Event.log e]
    (collectLoop net (pagesFrom (i + 1)) prs)).2
  refine ⟨by rw [hstep, htr], by rw [hstep, hres], ?_, ?_⟩
  · intro hi' resp err hnext
    rw [hstep, htr, pagesFrom_eq_cons (i + 1) hi']
    cases resp with
    | none => simp [collectLoop, PRs.Fetch, hnext]
    | some r =>
      cases err with
      | some e' => simp [collectLoop, PRs.Fetch, hnext]
      | none =>
        cases hb : r.Body with
        | ok v => simp [collectLoop, PRs.Fetch, hnext, hb, Run.after]
        | fail f e' => simp [collectLoop, PRs.Fetch, hnext, hb, Run.after]
  · have hupd : collectLoop (Function.update net i (pageOf [])) (pagesFrom i) prs
        = Run.after [Event.getPulls i, Event.sleep accessDuration] id
            (collectLoop (Function.update net i (pageOf [])) (pagesFrom (i + 1)) prs) := by
      rw [pagesFrom_eq_cons i hi]
      simp [collectLoop, PRs.Fetch, pageOf]
    have hcongr : collectLoop (Function.update net i (pageOf [])) (pagesFrom (i + 1)) prs
        = collectLoop net (pagesFrom (i + 1)) prs := by
      apply collectLoop_congr
      intro j hj
      have : i + 1 ≤ j := (List.mem_range'_1.mp hj).1
      have hne : j ≠ i := by omega
      simp [Function.update, hne]
    rw [hstep, hres, hupd, (Run_after_id _ _).1, hcongr]

/-- C5 at a run where page 1 holds PR 1, page 2 is not a list and page 3
holds PR 2, for page 2 and the PRs collected from page 1. -/
theorem decode_failure_skips_page_witness :
    2 < loop ∧
    netBadSecondPage 2
      = Net.did (some { StatusCode := 401, Body := Decoded.fail [] notAListError }) none ∧
    (collectLoop netBadSecondPage (pagesFrom 2) [some (listed alicePR)]).trace.take 3
      = [Event.getPulls 2, Event.log notAListError, Event.getPulls 3] ∧
    (collectLoop netBadSecondPage (pagesFrom 2) [some (listed alicePR)]).result
      = Outcome.returned [some (listed alicePR), some (listed bobPR)] :=
  ⟨by decide, rfl,
    (decode_failure_skips_page netBadSecondPage 2 [some (listed alicePR)] 401 [] notAListError
      (by decide) rfl).2.2.1
      (by decide) _ _ rfl,
    (decode_failure_skips_page netBadSecondPage 2 [some (listed alicePR)] 401 [] notAListError
      (by decide) rfl).2.1.trans
      rfl⟩

/-! ## The delay between page requests -/

/-- C10: no delay follows a page that fails to decode. With a first page
whose body is not a list, page 2 is requested right after the log line of
page 1, without any sleep in between, while the later requests are each
preceded by a sleep of `accessDuration`. -/
theorem no_delay_after_decode_failure :
    (collect netBadFirstPage).trace.take 5
      = [Event.getPulls 1, Event.log notAListError, Event.getPulls 2,
          Event.sleep accessDuration, Event.getPulls 3] ∧
    delayBetweenPageRequests (collect netBadFirstPage).trace = false ∧
    delayBetweenPageRequests ((collect netBadFirstPage).trace.drop 2) = true ∧
    (collect netBadFirstPage).result = Outcome.returned [] := by
  refine ⟨rfl, ?_, ?_, rfl⟩
  · rfl
  · rfl

/-! ## The comment collector -/

/-- C7: a connection failure crashes the comment collector. With PR 1 and
PR 2 collected, the comments of PR 1 fetched, and `client.Do` returning `nil`
and an error for PR 2, `FetchComments` dereferences the nil response: the loop
does not break, the run ends in a panic, and the comments attached to PR 1 are
never rendered. -/
theorem comment_collector_panics_on_connection_failure :
    (commentLoop cnetRefusedAtSecond 0 [some (listed alicePR), some (listed bobPR)]).result
      = Outcome.panicked ∧
    (commentLoop cnetRefusedAtSecond 0 [some (listed alicePR), some (listed bobPR)]).result
      ≠ Outcome.returned [some alicePR, some (listed bobPR)] ∧
    (commentLoop cnetRefusedAtSecond 0 [some (listed alicePR), some (listed bobPR)]).trace
      = [Event.getComments 1, Event.sleep accessDuration, Event.getComments 2] ∧
    (main sampleConfig netTwoPRs cnetRefusedAtSecond id goodFiles).result
      = Outcome.panicked ∧
    (main sampleConfig netTwoPRs cnetRefusedAtSecond id goodFiles).trace.any Event.isWrite
      = false := by
  have h : commentLoop cnetRefusedAtSecond 0 [some (listed alicePR), some (listed bobPR)]
      = { trace := [Event.getComments 1, Event.sleep accessDuration, Event.getComments 2],
          result := Outcome.panicked } := rfl
  refine ⟨by rw [h], by rw [h]; simp, by rw [h], rfl, rfl⟩

/-! ## The collectors when `client.Do` never returns a nil response -/

theorem collectLoop_returns (net : Nat → Net PRs) (pages : List Nat)
    (h : ∀ i ∈ pages, ∀ err, net i ≠ Net.did none err) (prs : PRs) :
    (collectLoop net pages prs).result
      = Outcome.returned (prs ++ decodedBefore net pages) := by
  induction pages generalizing prs with
  | nil => simp [collectLoop, decodedBefore]
  | cons i rest ih =>
    have hrest : ∀ prs, (collectLoop net rest prs).result
        = Outcome.returned (prs ++ decodedBefore net rest) :=
      fun prs => ih (fun j hj => h j (List.mem_cons_of_mem i hj)) prs
    have hi := h i (List.mem_cons_self i rest)
    cases hn : net i with
    | badRequest e => simp [collectLoop, decodedBefore, PRs.Fetch, hn]
    | did resp err =>
      cases resp with
      | none => exact absurd hn (hi err)
      | some r =>
        cases err with
        | some e => simp [collectLoop, decodedBefore, PRs.Fetch, hn]
        | none =>
          cases hb : r.Body with
          | ok tmp =>
            simp [collectLoop, decodedBefore, PRs.Fetch, hn, hb, (Run_after_id _ _).1, hrest]
          | fail filled e =>
            simp [collectLoop, decodedBefore, PRs.Fetch, hn, hb, (Run_after_id _ _).1, hrest]

theorem commentLoop_returns (net : Nat → Net Comments) (prs : PRs) (k : Nat)
    (hnil : none ∉ prs) (h : ∀ j, ∀ err, net j ≠ Net.did none err) :
    (commentLoop net k prs).result = Outcome.returned (attachedBefore net k prs) := by
  induction prs generalizing k with
  | nil => simp [commentLoop, attachedBefore]
  | cons pr rest ih =>
    have hrest : none ∉ rest := fun hm => hnil (List.mem_cons_of_mem _ hm)
    cases pr with
    | none => simp at hnil
    | some p =>
      cases hn : net k with
      | badRequest e => simp [commentLoop, attachedBefore, PR.FetchComments, hn]
      | did resp err =>
        cases resp with
        | none => exact absurd hn (h k err)
        | some r =>
          cases err with
          | some e => simp [commentLoop, attachedBefore, PR.FetchComments, hn]
          | none =>
            cases hb : r.Body with
            | ok cs =>
              simp [commentLoop, attachedBefore, PR.FetchComments, hn, hb, Run.after,
                ih (k + 1) hrest]
            | fail filled e =>
              simp [commentLoop, attachedBefore, PR.FetchComments, hn, hb, Run.after,
                ih (k + 1) hrest]

end YearEndReview
